import Mathlib

/-!
Shallow embedding of `src/ncm2mp3.py`, the NCM container decoder.

Bytes are modelled as `Nat` with explicit `% 256` where the Python code
masks with `& 0xFF`.  Byte strings are `List Nat`.  Fallible Python
operations (raising exceptions) are modelled with `Option`/`Except`.
The AES-ECB block-cipher primitive and the JSON parser come from
external libraries (`Crypto.Cipher.AES`, `json`), not from this
repository, so they are kept as parameters of the embedding (a `Crypto`
structure); everything else follows the Python source line by line.
-/

/-- Embedding of `unpad` (`ncm2mp3.py` line 98):
`lambda s: s[:-(s[-1] if isinstance(s[-1], int) else ord(s[-1]))]`.
On a `bytes` input `s[-1]` is an `int`, so the lambda returns `s[:-n]`
where `n = s[-1]`.  On an empty buffer `s[-1]` raises `IndexError`
(modelled by `none`).  Python slicing: `s[:-0]` is `s[:0] = b""`, and
`s[:-n]` for `n ≥ len(s)` is also empty. -/
def unpad (s : List Nat) : Option (List Nat) :=
  match s.getLast? with
  | none => none
  | some n => some (if n = 0 then [] else s.take (s.length - n))

/-- Embedding of the in-place XOR loops (`ncm2mp3.py` lines 109-110 and
129-130): `for i in range(len(b)): b[i] ^= mask`. -/
def xorInPlace (mask : Nat) (b : List Nat) : List Nat :=
  (List.range b.length).foldl
    (fun acc i => acc.set i (Nat.xor (acc.getD i 0) mask)) b

/-- The constant `core_key = binascii.a2b_hex("687A4852416D736F356B496E62617857")`
(`ncm2mp3.py` line 96). -/
def coreKey : List Nat :=
  [0x68, 0x7A, 0x48, 0x52, 0x41, 0x6D, 0x73, 0x6F,
   0x35, 0x6B, 0x49, 0x6E, 0x62, 0x61, 0x78, 0x57]

/-- The constant `meta_key = binascii.a2b_hex("2331346C6A6B5F215C5D2630553C2728")`
(`ncm2mp3.py` line 97). -/
def metaKey : List Nat :=
  [0x23, 0x31, 0x34, 0x6C, 0x6A, 0x6B, 0x5F, 0x21,
   0x5C, 0x5D, 0x26, 0x30, 0x55, 0x3C, 0x27, 0x28]

/-- One iteration of the `key_box` construction loop
(`ncm2mp3.py` lines 119-124).  The state is `(key_box, last, off)`:
```
swap = key_box[i]
c = (swap + last + key_data[off]) & 0xFF
off = (off + 1) % len(key_data)
key_box[i], key_box[c] = key_box[c], key_box[i]
last = c
``` -/
def keyBoxStep (keyData : List Nat) (s : List Nat × Nat × Nat) (i : Nat) :
    List Nat × Nat × Nat :=
  let box := s.1
  let last := s.2.1
  let off := s.2.2
  let swap := box.getD i 0
  let c := (swap + last + keyData.getD off 0) % 256
  let off2 := (off + 1) % keyData.length
  ((box.set i (box.getD c 0)).set c swap, c, off2)

/-- The 256-entry keystream table (`ncm2mp3.py` lines 115-124):
`key_box = bytearray(range(256))`, then the swap loop `for i in
range(256)` with accumulators `c`/`last`/`off` starting at 0. -/
def keyBox (keyData : List Nat) : List Nat :=
  ((List.range 256).foldl (keyBoxStep keyData) (List.range 256, 0, 0)).1

/-- The keystream index for 1-based position `i` within a chunk
(`ncm2mp3.py` lines 154-155):
```
j = i & 0xFF
idx = (key_box[j] + key_box[(key_box[j] + j) & 0xFF]) & 0xFF
``` -/
def ksIdx (box : List Nat) (i : Nat) : Nat :=
  let j := i % 256
  (box.getD j 0 + box.getD ((box.getD j 0 + j) % 256) 0) % 256

/-- One iteration of the per-chunk decode loop (`ncm2mp3.py` lines
153-156).  The state is `(key_box, chunk)`; the body only assigns
`chunk[i-1] ^= key_box[idx]`. -/
def decStep (s : List Nat × List Nat) (i : Nat) : List Nat × List Nat :=
  (s.1, s.2.set (i - 1) (Nat.xor (s.2.getD (i - 1) 0) (s.1.getD (ksIdx s.1 i) 0)))

/-- The decode loop `for i in range(1, n + 1)` over one chunk, as a fold
carrying the `(key_box, chunk)` state. -/
def decChunkState (box chunk : List Nat) : List Nat × List Nat :=
  (List.range' 1 chunk.length).foldl decStep (box, chunk)

/-- The decoded chunk: the `chunk` component of the loop state after the
`for i in range(1, n + 1)` loop (`ncm2mp3.py` lines 152-156). -/
def decChunk (box chunk : List Nat) : List Nat :=
  (decChunkState box chunk).2

/-- Fuel-indexed embedding of the streaming `while True` loop
(`ncm2mp3.py` lines 148-157): read a chunk of up to `0x8000` bytes,
stop when it is empty, otherwise decode it (position counter restarting
at 1) and continue with the rest.  Any `fuel ≥ payload.length` gives the
loop's value, since each iteration consumes at least one byte. -/
def decStreamGo (box : List Nat) : Nat → List Nat → List Nat
  | 0, _ => []
  | fuel + 1, payload =>
    if payload = [] then []
    else decChunk box (payload.take 0x8000) ++
      decStreamGo box fuel (payload.drop 0x8000)

/-- The full decoded audio stream produced by the `while True` loop. -/
def decStream (box payload : List Nat) : List Nat :=
  decStreamGo box payload.length payload

/-- The error kinds `dump_ncm` can raise, following the spec's taxonomy
(§7) mapped onto the Python exceptions:
`invalidContainer` = the `assert` on the magic signature (line 103);
`truncated` = `struct.error` from `struct.unpack("<I", ...)` on a short
read; `malformedBlock` = PyCryptodome's `ValueError` when the ECB
ciphertext length is not a multiple of 16; `invalidPadding` =
`IndexError` from `unpad` on an empty buffer; `keyEmpty` =
`ZeroDivisionError`/`IndexError` from the `key_box` loop when the
recovered seed key is empty; `base64Error` = `binascii.Error` from
`base64.b64decode`; `jsonError` = failure of
`bytes.decode("utf-8")`/`json.loads`. -/
inductive DumpErr where
  | invalidContainer
  | truncated
  | malformedBlock
  | invalidPadding
  | keyEmpty
  | base64Error
  | jsonError
deriving DecidableEq

/-- The metadata fields `dump_ncm` reads from the recovered JSON object:
`meta.get("format")` and `meta.get("albumPic")` (lines 142 and 160).
`none` models an absent key (or JSON `null`). -/
structure Meta where
  format : Option String
  albumPic : Option String
deriving DecidableEq

/-- The external primitives used by `dump_ncm` that are not code of this
repository: `AES.new(key, AES.MODE_ECB).decrypt` (PyCryptodome) and
`json.loads(bytes.decode("utf-8"))` (the `json` module, applied after
the fixed 6-byte `"music:"` prefix has been discarded).  They are kept
abstract; theorems quantify over them. -/
structure Crypto where
  aesDecrypt : List Nat → List Nat → List Nat
  jsonParse : List Nat → Option Meta

/-- The value of one base64-alphabet character, per the standard
alphabet `A-Z a-z 0-9 + /` (ASCII codes). -/
def b64Val (c : Nat) : Option Nat :=
  if 65 ≤ c ∧ c ≤ 90 then some (c - 65)
  else if 97 ≤ c ∧ c ≤ 122 then some (c - 71)
  else if 48 ≤ c ∧ c ≤ 57 then some (c + 4)
  else if c = 43 then some 62
  else if c = 47 then some 63
  else none

/-- Decode a base64 character stream four characters at a time; `'='`
(ASCII 61) is only accepted as trailing padding. -/
def b64Quads : List Nat → Option (List Nat)
  | [] => some []
  | a :: b :: c :: d :: rest =>
    match b64Val a, b64Val b with
    | some va, some vb =>
      if c = 61 then
        if d = 61 ∧ rest = [] then some [va * 4 + vb / 16] else none
      else
        match b64Val c with
        | some vc =>
          if d = 61 then
            if rest = [] then some [va * 4 + vb / 16, vb % 16 * 16 + vc / 4]
            else none
          else
            match b64Val d with
            | some vd =>
              match b64Quads rest with
              | some t =>
                some ((va * 4 + vb / 16) :: (vb % 16 * 16 + vc / 4) ::
                  (vc % 4 * 64 + vd) :: t)
              | none => none
            | none => none
        | none => none
    | _, _ => none
  | _ => none

/-- Model of Python `base64.b64decode` with the default
`validate=False`: characters outside the alphabet and `'='` are
discarded, then the remaining characters must form complete groups of
four (`binascii.Error: Incorrect padding` otherwise, modelled by
`none`). -/
def b64decode (s : List Nat) : Option (List Nat) :=
  let kept := s.filter (fun c => (b64Val c).isSome || c == 61)
  if kept.length % 4 = 0 then b64Quads kept else none

/-- Number of characters up to and including the last path separator
(`'/'` or `'\'`), 0 if there is none. -/
def lastSepEnd (cs : List Char) : Nat :=
  (cs.enum.filterMap
    (fun p => if p.2 = '/' ∨ p.2 = '\\' then some (p.1 + 1) else none)).getLastD 0

/-- Index of the last `'.'` in a list of characters, if any. -/
def lastDotIdx (cs : List Char) : Option Nat :=
  (cs.enum.filterMap (fun p => if p.2 = '.' then some p.1 else none)).getLast?

/-- ASCII lowering of one character, as Python `str.lower()` does on the
ASCII range (the strings involved here are ASCII). -/
def lowerChar (c : Char) : Char :=
  if 'A' ≤ c ∧ c ≤ 'Z' then Char.ofNat (c.toNat + 32) else c

/-- Model of Python `str.lower()`. -/
def lowerStr (s : String) : String := String.mk (s.data.map lowerChar)

/-- Model of Python `str.endswith(suffix)`. -/
def strEndsWith (s suf : String) : Bool := suf.data.isSuffixOf s.data

/-- The characters Python `str.strip()` removes. -/
def isPySpace (c : Char) : Bool :=
  c = ' ' ∨ c = '\t' ∨ c = '\n' ∨ c = '\x0b' ∨ c = '\x0c' ∨ c = '\r'

/-- Model of Python `str.strip()`. -/
def strStrip (s : String) : String :=
  String.mk (((s.data.dropWhile isPySpace).reverse.dropWhile isPySpace).reverse)

/-- Model of `os.path.splitext(s)[0]` (line 144): strip the extension,
i.e. everything from the last dot of the final path component on,
unless every character of that component before the dot is itself a dot
(so that names like `".bashrc"` keep their dot). -/
def splitextRoot (s : String) : String :=
  let cs := s.data
  let k := lastSepEnd cs
  let base := cs.drop k
  match lastDotIdx base with
  | none => s
  | some d =>
    if (base.take d).any (fun ch => ch ≠ '.') then String.mk (cs.take (k + d))
    else s

/-- Embedding of `struct.unpack("<I", f.read(4))[0]` on the remaining input
(little-endian 32-bit length prefix); `struct.error` (modelled `none`)
when fewer than 4 bytes remain. -/
def readU32 : List Nat → Option (Nat × List Nat)
  | b0 :: b1 :: b2 :: b3 :: rest =>
    some (b0 + 256 * b1 + 65536 * b2 + 16777216 * b3, rest)
  | _ => none

/-- Key recovery (`ncm2mp3.py` lines 107-112): XOR the key block with
`0x64` in place, ECB-decrypt with `core_key`, `unpad`, drop 17 bytes.
PyCryptodome raises `ValueError` when the ciphertext length is not a
multiple of the 16-byte block size. -/
def recoverSeedKey (C : Crypto) (keyData : List Nat) : Except DumpErr (List Nat) :=
  let masked := xorInPlace 0x64 keyData
  if masked.length % 16 ≠ 0 then .error .malformedBlock
  else
    match unpad (C.aesDecrypt coreKey masked) with
    | none => .error .invalidPadding
    | some up => .ok (up.drop 17)

/-- Metadata recovery (`ncm2mp3.py` lines 128-133): XOR with `0x63` in
place, drop the fixed 22-byte prefix, base64-decode, ECB-decrypt with
`meta_key`, `unpad`, then decode UTF-8, drop the 6-character `"music:"`
prefix and JSON-parse (the last three steps are the abstract
`Crypto.jsonParse`, applied after the 6-byte drop). -/
def metaRecover (C : Crypto) (metaData : List Nat) : Except DumpErr Meta :=
  let masked := xorInPlace 0x63 metaData
  match b64decode (masked.drop 22) with
  | none => .error .base64Error
  | some md =>
    if md.length % 16 ≠ 0 then .error .malformedBlock
    else
      match unpad (C.aesDecrypt metaKey md) with
      | none => .error .invalidPadding
      | some up =>
        match C.jsonParse (up.drop 6) with
        | none => .error .jsonError
        | some m => .ok m

/-- The filesystem operations `dump_ncm` performs on the audio output:
`create p` models `open(p, "wb")`, `append p data` models `m.write`,
`rename` models `os.replace` (which `dump_ncm` never performs on the
audio output; it appears here so that the atomic-publish discipline is
expressible). -/
inductive FsEvent where
  | create (path : String)
  | append (path : String) (data : List Nat)
  | rename (src dst : String)
deriving DecidableEq

/-- Whether an event is a rename. -/
def FsEvent.isRename : FsEvent → Bool
  | .rename _ _ => true
  | _ => false

/-- The write half of the `while True` loop (`ncm2mp3.py` lines
148-157): one `append` of the decoded chunk per iteration, fuel-indexed
like `decStreamGo`. -/
def writeChunksGo (box : List Nat) (path : String) : Nat → List Nat → List FsEvent
  | 0, _ => []
  | fuel + 1, rest =>
    if rest = [] then []
    else FsEvent.append path (decChunk box (rest.take 0x8000)) ::
      writeChunksGo box path fuel (rest.drop 0x8000)

/-- All write events of the streaming loop. -/
def writeChunks (box : List Nat) (path : String) (rest : List Nat) : List FsEvent :=
  writeChunksGo box path rest.length rest

/-- Embedding of `ncm2mp3.py` lines 135-157, after the metadata has been recovered:
skip the 4 crc bytes and the 5-byte gap, read the image size, skip the
image; choose the extension from `meta.get("format", "mp3").lower()`,
adjust the output path, open it for writing and stream the decoded
chunks into it.  The `Bool` in the result records whether cover-art
retrieval is attempted afterwards (`(meta.get("albumPic") or
"").strip()` non-empty, lines 160-161). -/
def dumpAudio (box : List Nat) (rest : List Nat) (meta : Meta) (outputFp : String) :
    List FsEvent × Except DumpErr (String × Bool) :=
  match readU32 (rest.drop 9) with
  | none => ([], .error .truncated)
  | some (imgSize, r7) =>
    let audio := r7.drop imgSize
    let ext := lowerStr (meta.format.getD ("mp3"))
    let outFp :=
      if strEndsWith (lowerStr outputFp) ("." ++ ext) then outputFp
      else splitextRoot outputFp ++ "." ++ ext
    (FsEvent.create outFp :: writeChunks box outFp audio,
      .ok (outFp, strStrip (meta.albumPic.getD ("")) != ""))

/-- Embedding of `ncm2mp3.py` lines 127-157: read the metadata length and block,
recover the metadata (any failure propagates: there is no handler
around lines 128-133), then decode the audio. -/
def dumpFromMeta (C : Crypto) (box : List Nat) (rest : List Nat) (outputFp : String) :
    List FsEvent × Except DumpErr (String × Bool) :=
  match readU32 rest with
  | none => ([], .error .truncated)
  | some (metaLen, r4) =>
    match metaRecover C (r4.take metaLen) with
    | .error e => ([], .error e)
    | .ok meta => dumpAudio box (r4.drop metaLen) meta outputFp

/-- The magic signature `header == b'CTENFDAM'` (`ncm2mp3.py` line 103). -/
def magicBytes : List Nat := [0x43, 0x54, 0x45, 0x4E, 0x46, 0x44, 0x41, 0x4D]

/-- The whole of `dump_ncm` (`ncm2mp3.py` lines 91-157) on an input byte
sequence: check the magic signature, skip 2 bytes, read and recover the
key block, build `key_box`, then hand over to the metadata and audio
stages.  The result is the list of filesystem events on the audio
output together with either the raised error or the final output path
and the cover-art flag. -/
def dumpNcm (C : Crypto) (input : List Nat) (outputFp : String) :
    List FsEvent × Except DumpErr (String × Bool) :=
  if input.take 8 ≠ magicBytes then ([], .error .invalidContainer)
  else
    match readU32 (input.drop 10) with
    | none => ([], .error .truncated)
    | some (keyLen, r2) =>
      match recoverSeedKey C (r2.take keyLen) with
      | .error e => ([], .error e)
      | .ok seed =>
        if seed = [] then ([], .error .keyEmpty)
        else dumpFromMeta C (keyBox seed) (r2.drop keyLen) outputFp

/-- The stream decoder the spec warns against (§4.4): a continuously
incrementing stream-global position counter, never reset at chunk
boundaries.  This is the refinement alternative compared against the
per-chunk-reset behaviour of the source; `decChunkFrom box pos` decodes
a chunk whose first byte sits at stream position `pos + 1`. -/
def decChunkFrom (box : List Nat) : Nat → List Nat → List Nat
  | _, [] => []
  | pos, b :: t =>
    Nat.xor b (box.getD (ksIdx box (pos + 1)) 0) :: decChunkFrom box (pos + 1) t

/-- The chunked read loop with the global (never-reset) counter. -/
def decStreamGlobalGo (box : List Nat) : Nat → Nat → List Nat → List Nat
  | 0, _, _ => []
  | fuel + 1, pos, payload =>
    if payload = [] then []
    else decChunkFrom box pos (payload.take 0x8000) ++
      decStreamGlobalGo box fuel (pos + (payload.take 0x8000).length)
        (payload.drop 0x8000)

/-- Whole-stream decoding with a stream-global position counter. -/
def decStreamGlobal (box payload : List Nat) : List Nat :=
  decStreamGlobalGo box payload.length 0 payload

/-- A concrete instantiation of the external primitives, used to
evaluate the pipeline on concrete containers: the block cipher is the
identity and the JSON parser returns an empty mapping. -/
def cEx : Crypto := ⟨fun _ d => d, fun _ => some ⟨none, none⟩⟩

/-- A 32-byte key block that, under `cEx`, recovers to the one-byte seed
key `[0]`: XOR-unmasking with `0x64` gives 31 zero bytes followed by
`14`, identity-"decryption" keeps it, `unpad` strips 14 bytes leaving
18 zeros, and dropping 17 leaves `[0]`. -/
def exKeyBlock : List Nat := List.replicate 31 0x64 ++ [0x6A]

/-- A container whose metadata block fails to decode: the metadata block
is exactly 22 bytes, so after the 22-byte prefix drop the base64 stage
decodes the empty string, ECB-decryption keeps it empty, and `unpad`
raises `IndexError` on the empty buffer. -/
def c2Input : List Nat :=
  magicBytes ++ [0, 0] ++ [32, 0, 0, 0] ++ exKeyBlock ++
  [22, 0, 0, 0] ++ List.replicate 22 0

/-- A container that decodes fully under `cEx`: the metadata block is 22
prefix bytes plus the `0x63`-masked base64 text `"AAAA...AA=="` (16 zero
bytes, which unpad to the empty buffer, parsed to the empty mapping), an
empty thumbnail, and a one-byte audio payload. -/
def c3Input : List Nat :=
  magicBytes ++ [0, 0] ++ [32, 0, 0, 0] ++ exKeyBlock ++
  [46, 0, 0, 0] ++ (List.replicate 22 0 ++ List.replicate 22 0x22 ++ [0x5E, 0x5E]) ++
  [0, 0, 0, 0] ++ [0, 0, 0, 0, 0] ++ [0, 0, 0, 0] ++ [0x12]

-- sanity checks on small inputs
example : unpad [1, 2, 1] = some [1, 2] := by decide
example : unpad [5, 0] = some [] := by decide
example : unpad [7] = some [] := by decide
example : unpad [] = none := by decide
example : xorInPlace 0x64 [0x64, 0] = [0, 0x64] := by decide
example : decChunk [3, 3, 3] [5] =
    [Nat.xor 5 (([3, 3, 3] : List Nat).getD (ksIdx [3, 3, 3] 1) 0)] := by decide
example : b64decode [] = some [] := by decide
example : b64decode [65] = none := by decide
-- "AAAA" → three zero bytes; "QUJD" → "ABC"
example : b64decode [65, 65, 65, 65] = some [0, 0, 0] := by decide
example : b64decode [81, 85, 74, 68] = some [65, 66, 67] := by decide
-- "TlE=" → "NQ"; "TQ==" → "M"; whitespace is discarded
example : b64decode [84, 108, 69, 61] = some [78, 81] := by decide
example : b64decode [84, 81, 61, 61] = some [77] := by decide
example : b64decode [10, 84, 81, 32, 61, 61] = some [77] := by decide
example : splitextRoot ("dir/x.mp3") = "dir/x" := by rfl
example : splitextRoot ("a.b/x") = "a.b/x" := by rfl
example : splitextRoot (".bashrc") = ".bashrc" := by rfl
example : recoverSeedKey cEx exKeyBlock = .ok [0] := by rfl
example : metaRecover cEx (List.replicate 22 0) = .error .invalidPadding := by rfl
example :
    metaRecover cEx (List.replicate 22 0 ++ List.replicate 22 0x22 ++ [0x5E, 0x5E]) =
      .ok ⟨none, none⟩ := by rfl
example : dumpNcm cEx c2Input ("song.mp3") = ([], .error .invalidPadding) := by rfl
example : (dumpNcm cEx c3Input ("song.mp3")).2 = .ok ("song.mp3", false) := by rfl
example : (dumpNcm cEx c3Input ("song.mp3")).1.head? =
    some (FsEvent.create ("song.mp3")) := by rfl
example : (dumpNcm cEx c3Input ("song.mp3")).1.any FsEvent.isRename = false := by rfl
example : dumpNcm cEx [] "x" = ([], .error .invalidContainer) := by rfl

/-! ## Generic helper lemmas -/

/-- Reading with `getD` after `set`, in one formula. -/
theorem getD_set' (l : List Nat) (i k a : Nat) :
    (l.set i a).getD k 0 = if i = k ∧ i < l.length then a else l.getD k 0 := by
  by_cases hil : i < l.length
  · by_cases hik : i = k
    · subst hik
      simp [List.getD_eq_getElem?_getD, List.getElem?_set, hil]
    · simp [List.getD_eq_getElem?_getD, List.getElem?_set, hik]
  · rw [List.set_eq_of_length_le (by omega), if_neg (by tauto)]

/-- Two lists of equal length whose `getD 0` values agree everywhere are
equal. -/
theorem eq_of_getD (l₁ l₂ : List Nat) (hlen : l₁.length = l₂.length)
    (h : ∀ k, l₁.getD k 0 = l₂.getD k 0) : l₁ = l₂ := by
  apply List.ext_getElem hlen
  intro i h₁ h₂
  have := h i
  rwa [List.getD_eq_getElem?_getD, List.getD_eq_getElem?_getD,
    List.getElem?_eq_getElem h₁, List.getElem?_eq_getElem h₂] at this

/-- Out-of-range `getD` is the default. -/
theorem getD_of_le (l : List Nat) (k : Nat) (h : l.length ≤ k) : l.getD k 0 = 0 := by
  rw [List.getD_eq_getElem?_getD, List.getElem?_eq_none h]
  rfl

/-! ## The padding remover (claims C6 and C10) -/

/-- C6 (counterexample): the claim says `unpad` fails with
`InvalidPaddingError` when the pad byte is `0` or exceeds the buffer
length; in the source (`ncm2mp3.py` line 98) it does not fail in either
case — it returns the empty byte string (`s[:-0]` is `s[:0]`, and
`s[:-n]` for `n > len(s)` is empty). -/
theorem c6_unpad_counterexample :
    unpad [5, 0] = some [] ∧ unpad [5, 0] ≠ none ∧
    unpad [7] = some [] ∧ unpad [7] ≠ none := by
  refine ⟨rfl, by decide, rfl, by decide⟩

/-- C6 (amended): for a non-empty buffer with last byte `n`, `unpad`
returns the first `len - n` bytes when `1 ≤ n ≤ len`, and the empty
byte string (rather than failing) when `n = 0` or `n > len`. -/
theorem c6_unpad_amended (s : List Nat) (n : Nat) (h : s.getLast? = some n) :
    unpad s = some (if 1 ≤ n ∧ n ≤ s.length then s.take (s.length - n) else []) := by
  have hu : unpad s = some (if n = 0 then [] else s.take (s.length - n)) := by
    unfold unpad
    rw [h]
  rw [hu]
  congr 1
  rcases Nat.eq_zero_or_pos n with h0 | h1
  · subst h0
    simp
  · rw [if_neg (by omega)]
    by_cases hle : n ≤ s.length
    · rw [if_pos ⟨h1, hle⟩]
    · rw [if_neg (by tauto), show s.length - n = 0 by omega, List.take_zero]

/-- C6 amended, instantiated at `s = [1, 2, 1]`, `n = 1`. -/
theorem c6_unpad_amended_witness :
    ([1, 2, 1] : List Nat).getLast? = some 1 ∧
    unpad [1, 2, 1] =
      some (if 1 ≤ 1 ∧ 1 ≤ ([1, 2, 1] : List Nat).length
        then ([1, 2, 1] : List Nat).take (([1, 2, 1] : List Nat).length - 1) else []) :=
  ⟨rfl, c6_unpad_amended [1, 2, 1] 1 rfl⟩

/-- C10: `unpad` is total on non-empty buffers: with last byte `n` it
returns `b[0 : len - n]` when `1 ≤ n < len`, and the empty byte string
when `n = 0` or `n ≥ len`. -/
theorem c10_unpad_total (s : List Nat) (n : Nat) (hs : s ≠ [])
    (h : s.getLast? = some n) :
    unpad s = some (if 1 ≤ n ∧ n < s.length then s.take (s.length - n) else []) := by
  have hu : unpad s = some (if n = 0 then [] else s.take (s.length - n)) := by
    unfold unpad
    rw [h]
  rw [hu]
  congr 1
  rcases Nat.eq_zero_or_pos n with h0 | h1
  · subst h0
    simp
  · rw [if_neg (by omega)]
    by_cases hlt : n < s.length
    · rw [if_pos ⟨h1, hlt⟩]
    · rw [if_neg (by tauto), show s.length - n = 0 by omega, List.take_zero]

/-- C10, instantiated at `s = [9, 1]`, `n = 1`. -/
theorem c10_unpad_total_witness :
    ([9, 1] : List Nat) ≠ [] ∧ ([9, 1] : List Nat).getLast? = some 1 ∧
    unpad [9, 1] =
      some (if 1 ≤ 1 ∧ 1 < ([9, 1] : List Nat).length
        then ([9, 1] : List Nat).take (([9, 1] : List Nat).length - 1) else []) :=
  ⟨by decide, rfl, c10_unpad_total [9, 1] 1 (by decide) rfl⟩

/-! ## The in-place XOR loop -/

/-- The XOR loop over the first `n` indices, pointwise. -/
theorem xorLoop_spec (mask : Nat) : ∀ (n : Nat) (b : List Nat), n ≤ b.length →
    (((List.range n).foldl (fun acc i => acc.set i (Nat.xor (acc.getD i 0) mask)) b).length
        = b.length) ∧
    ∀ k, ((List.range n).foldl (fun acc i => acc.set i (Nat.xor (acc.getD i 0) mask)) b).getD k 0
        = if k < n then Nat.xor (b.getD k 0) mask else b.getD k 0 := by
  intro n
  induction n with
  | zero =>
    intro b _
    refine ⟨rfl, fun k => ?_⟩
    rw [if_neg (by omega)]
    rfl
  | succ n ih =>
    intro b h
    obtain ⟨ihl, ihd⟩ := ih b (by omega)
    rw [List.range_succ, List.foldl_append, List.foldl_cons, List.foldl_nil]
    constructor
    · rw [List.length_set, ihl]
    · intro k
      rw [getD_set', ihl]
      by_cases hk : n = k
      · subst hk
        rw [if_pos ⟨rfl, by omega⟩, ihd, if_neg (by omega), if_pos (by omega)]
      · rw [if_neg (fun hc => hk hc.1), ihd]
        by_cases hlt : k < n
        · rw [if_pos hlt, if_pos (by omega)]
        · rw [if_neg hlt, if_neg (by omega)]

/-- The in-place XOR loop computes the bytewise XOR map. -/
theorem xorInPlace_eq_map (mask : Nat) (b : List Nat) :
    xorInPlace mask b = b.map (fun x => Nat.xor x mask) := by
  obtain ⟨hl, hd⟩ := xorLoop_spec mask b.length b le_rfl
  refine eq_of_getD _ _ (by rw [xorInPlace, hl, List.length_map]) fun k => ?_
  rw [xorInPlace, hd]
  by_cases hk : k < b.length
  · rw [if_pos hk, List.getD_eq_getElem?_getD, List.getD_eq_getElem?_getD,
      List.getElem?_map, List.getElem?_eq_getElem hk]
    rfl
  · rw [if_neg hk, getD_of_le _ _ (by omega), getD_of_le _ _ (by simp; omega)]

/-! ## Key recovery (claim C7) -/

/-- C7: whenever the key-recovery stage succeeds, the recovered seed key
is exactly: XOR every byte of the key block with `0x64`, ECB-decrypt
with the fixed core key, remove the trailing padding, and discard the
first 17 bytes of the result. -/
theorem c7_seed_key (C : Crypto) (block seed : List Nat)
    (h : recoverSeedKey C block = .ok seed) :
    seed =
      ((unpad (C.aesDecrypt coreKey (block.map (fun x => Nat.xor x 0x64)))).getD []).drop 17 := by
  rw [recoverSeedKey, ← xorInPlace_eq_map] at *
  by_cases hm : (xorInPlace 0x64 block).length % 16 ≠ 0
  · rw [if_pos hm] at h
    cases h
  · rw [if_neg hm] at h
    cases hu : unpad (C.aesDecrypt coreKey (xorInPlace 0x64 block)) with
    | none => rw [hu] at h; cases h
    | some up => rw [hu] at h; cases h; rfl

/-- C7, instantiated at the concrete key block `exKeyBlock` under
`cEx`. -/
theorem c7_seed_key_witness :
    recoverSeedKey cEx exKeyBlock = .ok [0] ∧
    ([0] : List Nat) =
      ((unpad (cEx.aesDecrypt coreKey (exKeyBlock.map (fun x => Nat.xor x 0x64)))).getD []).drop 17 :=
  ⟨rfl, c7_seed_key cEx exKeyBlock [0] rfl⟩

/-! ## The magic signature (claim C8) -/

/-- C8: for every input whose first 8 bytes are not the magic signature
`CTENFDAM`, `dump_ncm` fails with the invalid-container error (the
`assert` on line 103) and performs no filesystem operation on the
output path. -/
theorem c8_bad_magic (C : Crypto) (input : List Nat) (out : String)
    (h : input.take 8 ≠ magicBytes) :
    dumpNcm C input out = ([], .error .invalidContainer) := by
  rw [dumpNcm, if_pos h]

/-- C8, instantiated at the empty input. -/
theorem c8_bad_magic_witness :
    ([] : List Nat).take 8 ≠ magicBytes ∧
    dumpNcm cEx [] "x" = ([], .error .invalidContainer) :=
  ⟨by decide, c8_bad_magic cEx [] "x" (by decide)⟩

/-! ## The per-chunk decode loop (claim C1) -/

/-- The decode loop never touches the `key_box` component of its
state. -/
theorem foldl_decStep_fst : ∀ (is : List Nat) (s : List Nat × List Nat),
    (is.foldl decStep s).1 = s.1
  | [], _ => rfl
  | i :: is, s => by
    rw [List.foldl_cons, foldl_decStep_fst is]
    rfl

/-- The decode loop over positions `1..n`, pointwise: position `k + 1`
(0-based index `k`) of the chunk is XORed with `key_box[ksIdx (k+1)]`;
later positions are untouched. -/
theorem decLoop_spec (box : List Nat) : ∀ (n : Nat) (ch : List Nat), n ≤ ch.length →
    (((List.range' 1 n).foldl decStep (box, ch)).2.length = ch.length) ∧
    ∀ k, ((List.range' 1 n).foldl decStep (box, ch)).2.getD k 0 =
      if k < n then Nat.xor (ch.getD k 0) (box.getD (ksIdx box (k + 1)) 0)
      else ch.getD k 0 := by
  intro n
  induction n with
  | zero =>
    intro ch _
    refine ⟨rfl, fun k => ?_⟩
    rw [if_neg (by omega)]
    rfl
  | succ n ih =>
    intro ch h
    obtain ⟨ihl, ihd⟩ := ih ch (by omega)
    rw [List.range'_1_concat, List.foldl_append, List.foldl_cons, List.foldl_nil]
    simp only [decStep, foldl_decStep_fst]
    rw [show 1 + n - 1 = n by omega, show 1 + n = n + 1 by omega]
    constructor
    · rw [List.length_set, ihl]
    · intro k
      rw [getD_set', ihl]
      by_cases hk : n = k
      · subst hk
        rw [if_pos ⟨rfl, by omega⟩, ihd, if_neg (by omega), if_pos (by omega)]
      · rw [if_neg (fun hc => hk hc.1), ihd]
        by_cases hlt : k < n
        · rw [if_pos hlt, if_pos (by omega)]
        · rw [if_neg hlt, if_neg (by omega)]

/-- Decoding preserves the chunk length. -/
theorem decChunk_length (box ch : List Nat) : (decChunk box ch).length = ch.length :=
  (decLoop_spec box ch.length ch le_rfl).1

/-- The decoded byte at 0-based index `k`. -/
theorem decChunk_getD (box ch : List Nat) (k : Nat) (hk : k < ch.length) :
    (decChunk box ch).getD k 0 =
      Nat.xor (ch.getD k 0) (box.getD (ksIdx box (k + 1)) 0) := by
  rw [decChunk, decChunkState, (decLoop_spec box ch.length ch le_rfl).2 k, if_pos hk]

/-- C1: for every seed key of length ≥ 1 and every 1-indexed position
`p` within a chunk, the decoded audio byte equals the ciphertext byte
XORed with `table[idx]`, where `j = p mod 256` and
`idx = (table[j] + table[(table[j] + j) mod 256]) mod 256`, the table
being `key_box` built from the seed key by the swap schedule of lines
115-124. -/
theorem c1_keystream_byte (seed ch : List Nat) (p : Nat) (hseed : seed ≠ [])
    (hp1 : 1 ≤ p) (hp2 : p ≤ ch.length) :
    (decChunk (keyBox seed) ch).getD (p - 1) 0 =
      Nat.xor (ch.getD (p - 1) 0)
        ((keyBox seed).getD
          (((keyBox seed).getD (p % 256) 0 +
            (keyBox seed).getD (((keyBox seed).getD (p % 256) 0 + p % 256) % 256) 0) % 256) 0) := by
  rw [decChunk_getD (keyBox seed) ch (p - 1) (by omega), show p - 1 + 1 = p from by omega]
  rfl

/-- C1, instantiated at seed `[1]`, chunk `[10, 20]`, position `1`. -/
theorem c1_keystream_byte_witness :
    ([1] : List Nat) ≠ [] ∧ 1 ≤ 1 ∧ 1 ≤ ([10, 20] : List Nat).length ∧
    (decChunk (keyBox [1]) [10, 20]).getD (1 - 1) 0 =
      Nat.xor (([10, 20] : List Nat).getD (1 - 1) 0)
        ((keyBox [1]).getD
          (((keyBox [1]).getD (1 % 256) 0 +
            (keyBox [1]).getD (((keyBox [1]).getD (1 % 256) 0 + 1 % 256) % 256) 0) % 256) 0) :=
  ⟨by decide, by decide, by decide,
    c1_keystream_byte [1] [10, 20] 1 (by decide) (by decide) (by decide)⟩

/-! ## The keystream table is a permutation (claim C9) -/

/-- Setting index `i` of a list trades the old element for the new one,
multiset-wise. -/
theorem coe_set_add (l : List Nat) (i a : Nat) (h : i < l.length) :
    ((l.set i a : List Nat) : Multiset Nat) + {l.getD i 0} =
      ((l : List Nat) : Multiset Nat) + {a} := by
  have hd : l.getD i 0 = l[i] := by
    rw [List.getD_eq_getElem?_getD, List.getElem?_eq_getElem h]
    rfl
  rw [hd, List.set_eq_take_append_cons_drop, if_pos h]
  conv_rhs =>
    rw [show ((l : List Nat) : Multiset Nat) =
      ((l.take i ++ l[i] :: l.drop (i + 1) : List Nat) : Multiset Nat) by
        rw [← List.drop_eq_getElem_cons h, List.take_append_drop]]
  rw [← Multiset.coe_add, ← Multiset.coe_add, ← Multiset.cons_coe, ← Multiset.cons_coe,
    ← Multiset.singleton_add, ← Multiset.singleton_add]
  abel

/-- The two-`set` swap of positions `i` and `c` (as in the `key_box`
loop) is a permutation of the original list. -/
theorem set_swap_perm (l : List Nat) (i c : Nat) (hi : i < l.length) (hc : c < l.length) :
    ((l.set i (l.getD c 0)).set c (l.getD i 0)).Perm l := by
  rw [← Multiset.coe_eq_coe]
  have hm : (l.set i (l.getD c 0)).getD c 0 = l.getD c 0 := by
    rw [getD_set']
    split <;> rfl
  have hc' : c < (l.set i (l.getD c 0)).length := by
    rw [List.length_set]
    exact hc
  have h2 := coe_set_add (l.set i (l.getD c 0)) c (l.getD i 0) hc'
  rw [hm] at h2
  exact add_right_cancel (h2.trans (coe_set_add l i (l.getD c 0) hi))

/-- One `key_box` construction step preserves being a permutation of
`0..255`. -/
theorem keyBoxStep_perm (kd : List Nat) (s : List Nat × Nat × Nat) (i : Nat)
    (hi : i < 256) (hs : s.1.Perm (List.range 256)) :
    ((keyBoxStep kd s i).1).Perm (List.range 256) := by
  have hlen : s.1.length = 256 := by
    rw [hs.length_eq, List.length_range]
  simp only [keyBoxStep]
  exact (set_swap_perm s.1 i _ (by omega)
    (by rw [hlen]; exact Nat.mod_lt _ (by norm_num))).trans hs

/-- The `key_box` fold preserves being a permutation of `0..255` for any
index list drawn from `0..255`. -/
theorem keyBox_fold_perm (kd : List Nat) : ∀ (is : List Nat) (s : List Nat × Nat × Nat),
    (∀ i ∈ is, i < 256) → s.1.Perm (List.range 256) →
    ((is.foldl (keyBoxStep kd) s).1).Perm (List.range 256)
  | [], _, _, hs => hs
  | i :: is, s, hall, hs => by
    rw [List.foldl_cons]
    exact keyBox_fold_perm kd is _ (fun j hj => hall j (List.mem_cons_of_mem _ hj))
      (keyBoxStep_perm kd s i (hall i (List.mem_cons_self _ _)) hs)

set_option maxRecDepth 8192 in
set_option maxHeartbeats 2000000 in
/-- C9: for every non-empty seed key, the 256-entry `key_box` built by
the key-scheduling loop is a permutation of the byte values `0..255`,
and the decode loop never mutates it (the `key_box` component of the
decode-loop state is constant). -/
theorem c9_keybox_perm (seed : List Nat) (hseed : seed ≠ []) :
    (keyBox seed).Perm (List.range 256) ∧ (keyBox seed).length = 256 ∧
    ∀ ch, (decChunkState (keyBox seed) ch).1 = keyBox seed := by
  have hp : (keyBox seed).Perm (List.range 256) :=
    keyBox_fold_perm seed (List.range 256) (List.range 256, 0, 0)
      (fun i hi => List.mem_range.mp hi) (List.Perm.refl _)
  refine ⟨hp, by rw [hp.length_eq, List.length_range], fun ch => ?_⟩
  generalize keyBox seed = b
  exact foldl_decStep_fst _ _

/-- C9, instantiated at the one-byte seed key `[0x41]`. -/
theorem c9_keybox_perm_witness :
    ([0x41] : List Nat) ≠ [] ∧
    ((keyBox [0x41]).Perm (List.range 256) ∧ (keyBox [0x41]).length = 256 ∧
      ∀ ch, (decChunkState (keyBox [0x41]) ch).1 = keyBox [0x41]) :=
  ⟨by decide, c9_keybox_perm [0x41] (by decide)⟩

/-! ## Chunk splitting (claims C4 and C5) -/

/-- Reading with `getD` on an append, left part. -/
theorem getD_append_left (l₁ l₂ : List Nat) (k : Nat) (h : k < l₁.length) :
    (l₁ ++ l₂).getD k 0 = l₁.getD k 0 := by
  rw [List.getD_eq_getElem?_getD, List.getElem?_append_left h,
    ← List.getD_eq_getElem?_getD]

/-- Reading with `getD` on an append, right part. -/
theorem getD_append_right (l₁ l₂ : List Nat) (k : Nat) (h : l₁.length ≤ k) :
    (l₁ ++ l₂).getD k 0 = l₂.getD (k - l₁.length) 0 := by
  rw [List.getD_eq_getElem?_getD, List.getElem?_append_right h,
    ← List.getD_eq_getElem?_getD]

/-- The keystream index depends on the position only through
`p mod 256`. -/
theorem ksIdx_congr (box : List Nat) (p q : Nat) (h : p % 256 = q % 256) :
    ksIdx box p = ksIdx box q := by
  unfold ksIdx
  rw [h]

/-- Decoding the empty chunk. -/
theorem decChunk_nil (box : List Nat) : decChunk box [] = [] := rfl

/-- Decoding a concatenation whose first part has length divisible by
256 splits into the two decodes: the position counter only enters the
keystream modulo 256. -/
theorem decChunk_append (box a b : List Nat) (h : (256 : Nat) ∣ a.length) :
    decChunk box (a ++ b) = decChunk box a ++ decChunk box b := by
  refine eq_of_getD _ _ ?_ fun k => ?_
  · rw [decChunk_length, List.length_append, List.length_append,
      decChunk_length, decChunk_length]
  · by_cases h1 : k < a.length
    · rw [decChunk_getD _ _ _ (by rw [List.length_append]; omega),
        getD_append_left _ _ _ h1,
        getD_append_left _ _ _ (by rw [decChunk_length]; exact h1),
        decChunk_getD _ _ _ h1]
    · by_cases h2 : k < (a ++ b).length
      · have hb : k - a.length < b.length := by
          rw [List.length_append] at h2
          omega
        rw [decChunk_getD _ _ _ h2,
          getD_append_right _ _ _ (by omega),
          getD_append_right _ _ _ (by rw [decChunk_length]; omega),
          decChunk_length, decChunk_getD _ _ _ hb,
          ksIdx_congr box (k + 1) (k - a.length + 1) (by
            obtain ⟨t, ht⟩ := h
            rw [show k + 1 = k - a.length + 1 + 256 * t by omega,
              Nat.add_mul_mod_self_left])]
      · rw [getD_of_le _ _ (by rw [decChunk_length]; omega),
          getD_of_le _ _ (by
            rw [List.length_append, decChunk_length, decChunk_length]
            rw [List.length_append] at h2
            omega)]

/-- The streaming loop on an empty payload. -/
theorem decStreamGo_nil (box : List Nat) (fuel : Nat) :
    decStreamGo box fuel [] = [] := by
  cases fuel <;> rfl

/-- With enough fuel, the streaming loop (per-chunk position reset)
decodes the whole payload exactly as a single contiguous chunk with
positions `1..len` would: the chunk size `0x8000` is a multiple of
256. -/
theorem decStreamGo_eq_decChunk (box : List Nat) : ∀ (fuel : Nat) (payload : List Nat),
    payload.length ≤ fuel → decStreamGo box fuel payload = decChunk box payload := by
  intro fuel
  induction fuel with
  | zero =>
    intro l h
    rw [List.eq_nil_of_length_eq_zero (Nat.le_zero.mp h)]
    rfl
  | succ n ih =>
    intro l h
    simp only [decStreamGo]
    by_cases hl : l = []
    · rw [if_pos hl, hl, decChunk_nil]
    · rw [if_neg hl, ih (l.drop 0x8000) (by
        rw [List.length_drop]
        have : 0 < l.length := List.length_pos.mpr hl
        omega)]
      by_cases hbig : l.length ≤ 0x8000
      · rw [List.drop_eq_nil_of_le hbig, decChunk_nil, List.append_nil,
          List.take_of_length_le hbig]
      · rw [← decChunk_append box _ _ (by
            rw [List.length_take, Nat.min_eq_left (by omega)]
            exact ⟨128, rfl⟩),
          List.take_append_drop]

/-- C4: decoding the payload split into successive `0x8000`-byte chunks
with the position counter restarting at 1 at each chunk start produces
output identical, byte for byte, to decoding the same payload as one
contiguous chunk with positions `1..len`. -/
theorem c4_chunk_split (box payload : List Nat) :
    decStream box payload = decChunk box payload :=
  decStreamGo_eq_decChunk box payload.length payload le_rfl

/-- The function `decChunkFrom` preserves length. -/
theorem decChunkFrom_length (box : List Nat) : ∀ (l : List Nat) (p : Nat),
    (decChunkFrom box p l).length = l.length
  | [], _ => rfl
  | x :: t, p => by
    simp only [decChunkFrom, List.length_cons, decChunkFrom_length box t]

/-- The function `decChunkFrom`, pointwise. -/
theorem decChunkFrom_getD (box : List Nat) : ∀ (l : List Nat) (p k : Nat),
    k < l.length →
    (decChunkFrom box p l).getD k 0 =
      Nat.xor (l.getD k 0) (box.getD (ksIdx box (p + k + 1)) 0)
  | x :: t, p, 0, _ => by
    simp only [decChunkFrom, List.getD_cons_zero]
  | x :: t, p, k + 1, h => by
    simp only [decChunkFrom, List.getD_cons_succ]
    rw [decChunkFrom_getD box t (p + 1) k (by simpa using Nat.lt_of_succ_lt_succ h),
      show p + 1 + k + 1 = p + (k + 1) + 1 by omega]

/-- Starting the global counter at 0 gives exactly the per-chunk decode
of a single chunk. -/
theorem decChunkFrom_zero (box l : List Nat) :
    decChunkFrom box 0 l = decChunk box l := by
  refine eq_of_getD _ _ (by rw [decChunkFrom_length, decChunk_length]) fun k => ?_
  by_cases hk : k < l.length
  · rw [decChunkFrom_getD box l 0 k hk, decChunk_getD _ _ _ hk, Nat.zero_add]
  · rw [getD_of_le _ _ (by rw [decChunkFrom_length]; omega),
      getD_of_le _ _ (by rw [decChunk_length]; omega)]

/-- The function `decChunkFrom` depends on the start position only modulo 256. -/
theorem decChunkFrom_congr (box : List Nat) : ∀ (l : List Nat) (p q : Nat),
    p % 256 = q % 256 → decChunkFrom box p l = decChunkFrom box q l
  | [], _, _, _ => rfl
  | x :: t, p, q, h => by
    simp only [decChunkFrom]
    rw [ksIdx_congr box (p + 1) (q + 1) (by omega),
      decChunkFrom_congr box t (p + 1) (q + 1) (by omega)]

/-- The global-counter loop on an empty payload. -/
theorem decStreamGlobalGo_nil (box : List Nat) (fuel pos : Nat) :
    decStreamGlobalGo box fuel pos [] = [] := by
  cases fuel <;> rfl

/-- As long as the running position is a multiple of 256 — which it
always is, since every full chunk has length `0x8000 = 128 * 256` — the
global-counter loop agrees with the per-chunk-reset loop. -/
theorem decStreamGlobalGo_eq (box : List Nat) : ∀ (fuel pos : Nat) (payload : List Nat),
    (256 : Nat) ∣ pos →
    decStreamGlobalGo box fuel pos payload = decStreamGo box fuel payload := by
  intro fuel
  induction fuel with
  | zero =>
    intro pos l _
    rfl
  | succ n ih =>
    intro pos l hpos
    simp only [decStreamGlobalGo, decStreamGo]
    by_cases hl : l = []
    · rw [if_pos hl, if_pos hl]
    · rw [if_neg hl, if_neg hl,
        decChunkFrom_congr box (l.take 0x8000) pos 0 (by omega),
        decChunkFrom_zero]
      by_cases hbig : l.length ≤ 0x8000
      · rw [List.drop_eq_nil_of_le hbig, decStreamGlobalGo_nil, decStreamGo_nil]
      · rw [ih (pos + (l.take 0x8000).length) (l.drop 0x8000) (by
          rw [List.length_take, Nat.min_eq_left (by omega)]
          omega)]

/-- C5 (amended): for every audio payload and every keystream table,
decoding with a continuously incrementing stream-global position
counter produces output identical to the per-chunk-reset decoding of
the source: the position enters the keystream only modulo 256 and the
chunk size `0x8000` is a multiple of 256, so the two counters agree
modulo 256 at every byte. -/
theorem c5_global_counter_amended (box payload : List Nat) :
    decStreamGlobal box payload = decStream box payload := by
  rw [decStreamGlobal, decStream,
    decStreamGlobalGo_eq box payload.length 0 payload ⟨0, rfl⟩]

/-- C5 (counterexample to the claim as stated): there is no payload
longer than `0x8000` bytes and no table on which the global-counter
decoding differs from the per-chunk-reset decoding — the spec's
warning that output "will be corrupted from the second chunk onward"
never materialises. -/
theorem c5_global_counter_counterexample :
    ¬ ∃ (box payload : List Nat),
      0x8000 < payload.length ∧ decStreamGlobal box payload ≠ decStream box payload := by
  rintro ⟨box, payload, -, hne⟩
  exact hne (by
    rw [decStreamGlobal, decStream,
      decStreamGlobalGo_eq box payload.length 0 payload ⟨0, rfl⟩])

/-! ## Metadata failure is fatal (claim C2) -/

/-- C2 (counterexample): a concrete container whose metadata block fails
to decode (the block is 22 bytes, so the stage after the prefix drop
unpads an empty buffer and raises).  Contrary to the claim, `decode`
does not succeed and produces no output file: the error propagates —
there is no handler around `ncm2mp3.py` lines 127-133 — so there is
also no `mp3` fallback and no cover-art retrieval. -/
theorem c2_meta_failure_counterexample :
    metaRecover cEx (List.replicate 22 0) = .error .invalidPadding ∧
    dumpNcm cEx c2Input ("song.mp3") = ([], .error .invalidPadding) :=
  ⟨rfl, rfl⟩

/-- C2 (amended): for every container whose metadata block fails to
decode (at any stage), `dump_ncm` fails with that same error and
performs no filesystem operation (in particular no output file and no
cover-art retrieval).  The `"mp3"` default applies only when the
metadata parses successfully but lacks a `format` key. -/
theorem c2_meta_failure_amended (C : Crypto) (box rest : List Nat) (out : String)
    (metaLen : Nat) (r4 : List Nat) (e : DumpErr)
    (h1 : readU32 rest = some (metaLen, r4))
    (h2 : metaRecover C (r4.take metaLen) = .error e) :
    dumpFromMeta C box rest out = ([], .error e) := by
  simp only [dumpFromMeta, h1, h2]

/-- C2 amended, instantiated at the metadata block of `c2Input`. -/
theorem c2_meta_failure_amended_witness :
    readU32 ([22, 0, 0, 0] ++ List.replicate 22 0) = some (22, List.replicate 22 0) ∧
    metaRecover cEx ((List.replicate 22 0).take 22) = .error .invalidPadding ∧
    dumpFromMeta cEx [] ([22, 0, 0, 0] ++ List.replicate 22 0) "song.mp3" =
      ([], .error .invalidPadding) :=
  ⟨rfl, rfl,
    c2_meta_failure_amended cEx [] ([22, 0, 0, 0] ++ List.replicate 22 0) "song.mp3"
      22 (List.replicate 22 0) .invalidPadding rfl rfl⟩

/-! ## No atomic publish (claim C3) -/

/-- C3 (counterexample): a concrete container that decodes fully.  The
published output path is `"song.mp3"`, and the very first filesystem
operation is `open("song.mp3", "wb")` — the final path itself — with
the decoded chunks appended to it afterwards and no rename anywhere in
the trace.  Output is therefore not written to a temporary path and
published by atomic rename: an interruption between the `create` and
the end of the loop would leave a partial file at the final path. -/
theorem c3_direct_write_counterexample :
    (dumpNcm cEx c3Input ("song.mp3")).2 = .ok ("song.mp3", false) ∧
    (dumpNcm cEx c3Input ("song.mp3")).1.head? = some (FsEvent.create ("song.mp3")) ∧
    (dumpNcm cEx c3Input ("song.mp3")).1.any FsEvent.isRename = false :=
  ⟨rfl, rfl, rfl⟩

/-- C3 (amended): for every input on which `dump_ncm` fails, no
filesystem operation has been performed on the output path — every
failure in the pipeline occurs before the output file is opened, so a
failed decode leaves no file; but on the success path the output is
written directly, chunk by chunk, to the final path (no temporary path,
no atomic rename). -/
theorem c3_failure_no_events (C : Crypto) (input : List Nat) (out : String) (e : DumpErr)
    (h : (dumpNcm C input out).2 = .error e) : (dumpNcm C input out).1 = [] := by
  simp only [dumpNcm] at h ⊢
  by_cases hm : input.take 8 ≠ magicBytes
  · rw [if_pos hm]
  · rw [if_neg hm] at h ⊢
    cases hr : readU32 (input.drop 10) with
    | none => simp [hr]
    | some kv =>
      obtain ⟨keyLen, r2⟩ := kv
      simp only [hr] at h ⊢
      cases hk : recoverSeedKey C (r2.take keyLen) with
      | error e2 => simp [hk]
      | ok seed =>
        simp only [hk] at h ⊢
        by_cases hseed : seed = []
        · rw [if_pos hseed]
        · rw [if_neg hseed] at h ⊢
          simp only [dumpFromMeta] at h ⊢
          cases hr4 : readU32 (r2.drop keyLen) with
          | none => simp [hr4]
          | some mv =>
            obtain ⟨metaLen, r4⟩ := mv
            simp only [hr4] at h ⊢
            cases hmr : metaRecover C (r4.take metaLen) with
            | error e3 => simp [hmr]
            | ok meta =>
              simp only [hmr] at h ⊢
              simp only [dumpAudio] at h ⊢
              cases himg : readU32 ((r4.drop metaLen).drop 9) with
              | none => simp [himg]
              | some iv =>
                obtain ⟨imgSize, r7⟩ := iv
                simp only [himg] at h
                exfalso
                simp at h

/-- C3 amended, instantiated at the empty (bad-magic) input. -/
theorem c3_failure_no_events_witness :
    (dumpNcm cEx [] "x").2 = .error .invalidContainer ∧ (dumpNcm cEx [] "x").1 = [] :=
  ⟨rfl, c3_failure_no_events cEx [] "x" .invalidContainer rfl⟩
